import Mathlib

/-
Shallow embedding of the conversation-cache core of `src/spanish_tutor.py`
(`ConversationManager`, `generate_gemini_response`, `handle_text`).

Modelling choices:
- `datetime.now()` values are modelled as an explicit `Int` parameter `now`
  (an abstract point in time, in minutes, so that `timedelta(minutes=expiry_minutes)`
  becomes the integer `expiryMinutes`).
- The Python `defaultdict(list)` keyed by user id is modelled as an insertion-ordered
  association list `List (UserId × List Turn)` with unique keys; a `defaultdict`
  read of a missing key inserts the key bound to `[]` at the end, exactly as the
  Python dict does.
- The generative backend is modelled in two phases, as in the code:
  `model.generate_content` is an oracle `GenPayload → Except String Resp`
  returning a response object of an abstract type `Resp`, and the `.text`
  property access on that object is a second oracle `Resp → Except String String`
  that can itself raise (the source's commented-out validator notes that
  `test_response.text` "will fail if the API key is invalid"; blocked or empty
  generations also raise there). `Except.error e` models a raised exception
  with message `e`, which in the Python code propagates through the
  `try/finally` of `generate_gemini_response` to the caller.
-/

namespace SpanishTutor

/-- One stored conversation turn: the dict `{'role': ..., 'content': ..., 'timestamp': ...}`
appended by `ConversationManager.add_message`. -/
structure Turn where
  role : String
  content : String
  timestamp : Int
deriving Repr, DecidableEq

/-- One history entry as returned by `ConversationManager.get_history`:
the dict `{'role': ..., 'content': ...}` — no timestamp field. -/
structure HistEntry where
  role : String
  content : String
deriving Repr, DecidableEq

/-- User identifiers (`user_id`). -/
abbrev UserId := String

/-- State of a `ConversationManager` instance: the `conversations` defaultdict
(modelled as an insertion-ordered association list) and the `expiry_minutes`
configuration from `__init__`. -/
structure ConversationManager where
  conversations : List (UserId × List Turn)
  expiryMinutes : Int
deriving Repr, DecidableEq

/-- Fresh `ConversationManager(expiry_minutes=e)`: empty mapping. -/
def initManager (e : Int) : ConversationManager := ⟨[], e⟩

/-- Dictionary key lookup on the association list modelling the dict. -/
def lookupUser : List (UserId × List Turn) → UserId → Option (List Turn)
  | [], _ => none
  | (v, ts) :: rest, u => if v = u then some ts else lookupUser rest u

/-- The turn sequence currently stored for a user (empty when the key is absent). -/
def turnsOf (cm : ConversationManager) (u : UserId) : List Turn :=
  (lookupUser cm.conversations u).getD []

/-- A `defaultdict(list)` read `self.conversations[user_id]`: returns the stored
list when the key is present; otherwise inserts the key bound to `[]` (at the end,
per dict insertion order) and returns `[]`. Returns the possibly-updated mapping
together with the value read. -/
def defaultAccess (m : List (UserId × List Turn)) (u : UserId) :
    List (UserId × List Turn) × List Turn :=
  match lookupUser m u with
  | some ts => (m, ts)
  | none => (m ++ [(u, [])], [])

/-- Projection of a stored turn to the role/content dict built by `get_history`. -/
def stripTurn (t : Turn) : HistEntry := ⟨t.role, t.content⟩

/-- `ConversationManager.get_history(user_id)`: list comprehension over
`self.conversations[user_id]` keeping only `role` and `content`. Because
`conversations` is a `defaultdict`, the read itself may insert an empty entry,
so the (possibly updated) manager state is returned alongside the result. -/
def getHistory (cm : ConversationManager) (u : UserId) :
    ConversationManager × List HistEntry :=
  let a := defaultAccess cm.conversations u
  ({ cm with conversations := a.1 }, a.2.map stripTurn)

/-- `ConversationManager._clean_expired()`: for every known user, filter the
stored turns in place, keeping those with `current_time - timestamp < timedelta(minutes=expiry_minutes)`. -/
def cleanExpired (now : Int) (cm : ConversationManager) : ConversationManager :=
  { cm with
    conversations := cm.conversations.map
      (fun p => (p.1, p.2.filter (fun t => decide (now - t.timestamp < cm.expiryMinutes)))) }

/-- The in-place `self.conversations[user_id].append(turn)` on a `defaultdict`:
appends to the existing list when the key is present, otherwise inserts the key
(at the end) bound to the one-element list. -/
def appendTurn : List (UserId × List Turn) → UserId → Turn → List (UserId × List Turn)
  | [], u, t => [(u, [t])]
  | (v, ts) :: rest, u, t =>
      if v = u then (v, ts ++ [t]) :: rest else (v, ts) :: appendTurn rest u t

/-- `ConversationManager.add_message(user_id, role, content)`: first runs the
full expiry sweep `_clean_expired()`, then appends
`{'role': role, 'content': content, 'timestamp': datetime.now()}` to the user's list. -/
def addMessage (now : Int) (u : UserId) (role content : String)
    (cm : ConversationManager) : ConversationManager :=
  let cm2 := cleanExpired now cm
  { cm2 with conversations := appendTurn cm2.conversations u ⟨role, content, now⟩ }

/-- `ConversationManager.clear_history(user_id)`:
`if user_id in self.conversations: del self.conversations[user_id]`.
Key deletion on the dict is modelled by dropping the (unique) entry with that key. -/
def clearHistory (u : UserId) (cm : ConversationManager) : ConversationManager :=
  if (lookupUser cm.conversations u).isSome then
    { cm with conversations := cm.conversations.filter (fun p => decide (p.1 ≠ u)) }
  else cm

/-- Payload handed to `model.generate_content`: either a plain prompt string or
a `[full_prompt, file]` pair when a media file is supplied. -/
inductive GenPayload where
  | textOnly (prompt : String)
  | withMedia (prompt : String) (file : String)
deriving Repr, DecidableEq

/-- The prompt-building loop of `generate_gemini_response`:
`full_prompt = prompt + "\n\nConversation history:\n"` followed by
`full_prompt += f"{role}: {msg['content']}\n"` for each history entry, where
`role` is `"User"` when `msg['role'] == 'user'` and `"Assistant"` otherwise. -/
def buildFullPrompt (prompt : String) (history : List HistEntry) : String :=
  history.foldl
    (fun acc msg =>
      acc ++ (if msg.role = "user" then "User" else "Assistant") ++ ": " ++ msg.content ++ "\n")
    (prompt ++ "\n\nConversation history:\n")

/-- The payload `generate_gemini_response` hands to the backend:
`[full_prompt, file]` when `file` is given, otherwise
`full_prompt + f"\nUser: {input_content}"`. -/
def geminiPayload (prompt : String) (history : List HistEntry)
    (inputContent : String) (file : Option String) : GenPayload :=
  let fullPrompt := buildFullPrompt prompt history
  match file with
  | some f => GenPayload.withMedia fullPrompt f
  | none => GenPayload.textOnly (fullPrompt ++ "\nUser: " ++ inputContent)

/-- `generate_gemini_response(prompt, user_id, input_content, file)`: fetch the
history (a `defaultdict` read, hence the threaded state), build the combined
prompt, call `generate_content`; if that raises, nothing is appended and the
error propagates. Otherwise the user turn is appended first (line 189), and
only then is the generated text obtained via the `response.text` property
access (line 190) — an access that can raise; when it does, the error
propagates with the user turn already persisted. On success the assistant turn
is appended and the text returned (the two `.text` reads at lines 190 and 192
are property accesses on the same response object and agree, so the text is
bound once). The surrounding `try/finally` only runs `gc.collect()`. -/
def generateGeminiResponse {Resp : Type}
    (generateContent : GenPayload → Except String Resp)
    (respText : Resp → Except String String) (now : Int)
    (prompt : String) (userId : UserId) (inputContent : String) (file : Option String)
    (cm : ConversationManager) : Except String String × ConversationManager :=
  let h := getHistory cm userId
  let payload := geminiPayload prompt h.2 inputContent file
  match generateContent payload with
  | Except.error e => (Except.error e, h.1)
  | Except.ok resp =>
      let cm2 := addMessage now userId "user" inputContent h.1
      match respText resp with
      | Except.error e => (Except.error e, cm2)
      | Except.ok text => (Except.ok text, addMessage now userId "assistant" text cm2)

/-- The system prompt `GEMINI_PROMPT` from the source. -/
def GEMINI_PROMPT : String :=
  "Your role is to help them practice and learn Spanish. \nListen to their audio messages and respond naturally to what they say. ALWAYS respond in SPANISH!!!\nKeep in mind that they will make mistakes. Avoid starting with generic greetings or phrases like \"¡Hola!\", \"¡Qué interesante!\", \"¡Excelente pregunta!\", etc. \n\nProvide detailed, informative responses that:\n- Include at least 3-4 complete sentences\n- Explain concepts thoroughly\n- Give examples when relevant\n- Include cultural context when appropriate\n- Never exceed 2000 characters\n- Always end with an engaging follow-up question\n\nInstead of just answering directly, expand on the topic and provide rich context."

/-- Python `str.lower()`: lowercase the string character by character. -/
def strLower (s : String) : String := String.mk (s.data.map Char.toLower)

/-- The text-message handler `handle_text`, restricted to its store-relevant
behaviour: when the lowercased text equals "clear history" it clears that user's
history and replies with the fixed acknowledgement; otherwise it calls
`generate_gemini_response` with `GEMINI_PROMPT` and replies with the generated
text, or with the apologetic error message when the backend raised. -/
def handle_text {Resp : Type} (generateContent : GenPayload → Except String Resp)
    (respText : Resp → Except String String) (now : Int)
    (msgText : String) (userId : UserId) (cm : ConversationManager) :
    String × ConversationManager :=
  if strLower msgText = "clear history" then
    ("¡Historial de conversación borrado! Empecemos de nuevo.", clearHistory userId cm)
  else
    match generateGeminiResponse generateContent respText now GEMINI_PROMPT userId msgText
        none cm with
    | (Except.ok response, cm2) => (response, cm2)
    | (Except.error e, cm2) =>
        ("Sorry, there was an error processing your message: " ++ e, cm2)

/-- Lookup commutes with a per-entry rewrite of the stored lists. -/
theorem lookupUser_mapSnd (f : List Turn → List Turn) :
    ∀ (m : List (UserId × List Turn)) (u : UserId),
      lookupUser (m.map (fun p => (p.1, f p.2))) u = (lookupUser m u).map f := by
  intro m u
  induction m with
  | nil => rfl
  | cons p rest ih =>
      obtain ⟨w, ts⟩ := p
      by_cases h : w = u
      · simp [lookupUser, h]
      · simp [lookupUser, h, ih]

/-- Lookup after the in-place append of a turn. -/
theorem lookupUser_appendTurn (t : Turn) :
    ∀ (m : List (UserId × List Turn)) (u v : UserId),
      lookupUser (appendTurn m u t) v
        = if v = u then some ((lookupUser m u).getD [] ++ [t]) else lookupUser m v := by
  intro m
  induction m with
  | nil =>
      intro u v
      by_cases h : v = u
      · subst h; simp [appendTurn, lookupUser]
      · have h2 : ¬ u = v := fun hh => h hh.symm
        simp [appendTurn, lookupUser, h, h2]
  | cons p rest ih =>
      intro u v
      obtain ⟨w, ts⟩ := p
      by_cases hpu : w = u
      · subst hpu
        by_cases hv : v = w
        · subst hv; simp [appendTurn, lookupUser]
        · have h2 : ¬ w = v := fun hh => hv hh.symm
          simp [appendTurn, lookupUser, hv, h2]
      · by_cases hpv : w = v
        · subst hpv
          simp [appendTurn, lookupUser, hpu]
        · simp [appendTurn, lookupUser, hpu, hpv, ih]

/-- Lookup in a concatenation when the key is absent from the first part. -/
theorem lookupUser_append_of_none {m₁ : List (UserId × List Turn)} {v : UserId}
    (m₂ : List (UserId × List Turn)) (h : lookupUser m₁ v = none) :
    lookupUser (m₁ ++ m₂) v = lookupUser m₂ v := by
  induction m₁ with
  | nil => rfl
  | cons p rest ih =>
      obtain ⟨w, ts⟩ := p
      by_cases hp : w = v
      · simp [lookupUser, hp] at h
      · simp only [lookupUser, hp, if_false] at h
        rw [List.cons_append]
        simp only [lookupUser, hp, if_false]
        exact ih h

/-- Lookup in a concatenation when the key is present in the first part. -/
theorem lookupUser_append_of_some {m₁ : List (UserId × List Turn)} {v : UserId}
    {ts : List Turn} (m₂ : List (UserId × List Turn)) (h : lookupUser m₁ v = some ts) :
    lookupUser (m₁ ++ m₂) v = some ts := by
  induction m₁ with
  | nil => simp [lookupUser] at h
  | cons p rest ih =>
      obtain ⟨w, ts2⟩ := p
      by_cases hp : w = v
      · simp only [lookupUser, hp, if_true] at h
        rw [List.cons_append]
        simp only [lookupUser, hp, if_true]
        exact h
      · simp only [lookupUser, hp, if_false] at h
        rw [List.cons_append]
        simp only [lookupUser, hp, if_false]
        exact ih h

/-- The sweep filters each user's stored turns by the freshness test. -/
theorem turnsOf_cleanExpired (now : Int) (cm : ConversationManager) (u : UserId) :
    turnsOf (cleanExpired now cm) u
      = (turnsOf cm u).filter (fun t => decide (now - t.timestamp < cm.expiryMinutes)) := by
  unfold turnsOf cleanExpired
  rw [lookupUser_mapSnd]
  cases lookupUser cm.conversations u <;> simp

/-- The turn sequences after `add_message`: the target user gets the swept
sequence plus the new turn appended; every other user just gets swept. -/
theorem turnsOf_addMessage (now : Int) (u : UserId) (role content : String)
    (cm : ConversationManager) (v : UserId) :
    turnsOf (addMessage now u role content cm) v
      = (if v = u
          then (turnsOf cm v).filter (fun t => decide (now - t.timestamp < cm.expiryMinutes))
                ++ [⟨role, content, now⟩]
          else (turnsOf cm v).filter (fun t => decide (now - t.timestamp < cm.expiryMinutes))) := by
  have h0 : turnsOf (addMessage now u role content cm) v
      = (lookupUser (appendTurn (cleanExpired now cm).conversations u
          ⟨role, content, now⟩) v).getD [] := rfl
  rw [h0, lookupUser_appendTurn]
  have hclean : ∀ x, (lookupUser (cleanExpired now cm).conversations x).getD []
      = (turnsOf cm x).filter (fun t => decide (now - t.timestamp < cm.expiryMinutes)) :=
    fun x => turnsOf_cleanExpired now cm x
  by_cases h : v = u
  · subst h
    rw [if_pos rfl, if_pos rfl, Option.getD_some, hclean]
  · rw [if_neg h, if_neg h, hclean]

/-- The sweep does not change the configured expiry window. -/
theorem expiry_cleanExpired (now : Int) (cm : ConversationManager) :
    (cleanExpired now cm).expiryMinutes = cm.expiryMinutes := rfl

/-- Appending a message does not change the configured expiry window. -/
theorem expiry_addMessage (now : Int) (u : UserId) (role content : String)
    (cm : ConversationManager) :
    (addMessage now u role content cm).expiryMinutes = cm.expiryMinutes := rfl

/-- `get_history` returns exactly the stored turns, stripped to role/content. -/
theorem getHistory_snd (cm : ConversationManager) (u : UserId) :
    (getHistory cm u).2 = (turnsOf cm u).map stripTurn := by
  unfold getHistory defaultAccess turnsOf
  cases h : lookupUser cm.conversations u <;> simp [h]

/-- The `defaultdict` side effect of `get_history` changes no user's stored turns. -/
theorem turnsOf_getHistory_fst (cm : ConversationManager) (u v : UserId) :
    turnsOf (getHistory cm u).1 v = turnsOf cm v := by
  unfold getHistory defaultAccess
  cases h : lookupUser cm.conversations u with
  | some ts => simp [turnsOf]
  | none =>
      simp only
      unfold turnsOf
      cases hv : lookupUser cm.conversations v with
      | some ts => simp [lookupUser_append_of_some _ hv]
      | none =>
          rw [lookupUser_append_of_none _ hv]
          by_cases huv : u = v
          · subst huv; simp [lookupUser]
          · simp [lookupUser, huv]

/-- Deleting a key makes it absent. -/
theorem lookupUser_eraseKey_self (u : UserId) :
    ∀ m : List (UserId × List Turn),
      lookupUser (m.filter (fun p => decide (p.1 ≠ u))) u = none := by
  intro m
  induction m with
  | nil => rfl
  | cons p rest ih =>
      obtain ⟨w, ts⟩ := p
      by_cases h : w = u
      · have hfilter : ¬ (decide ((w, ts).1 ≠ u) = true) := by simp [h]
        rw [List.filter_cons, if_neg hfilter]
        exact ih
      · have hfilter : decide ((w, ts).1 ≠ u) = true := by simp [h]
        rw [List.filter_cons, if_pos hfilter]
        simp only [lookupUser, h, if_false]
        exact ih

/-- Deleting one key leaves every other key's binding unchanged. -/
theorem lookupUser_eraseKey_ne {u v : UserId} (hvu : v ≠ u) :
    ∀ m : List (UserId × List Turn),
      lookupUser (m.filter (fun p => decide (p.1 ≠ u))) v = lookupUser m v := by
  intro m
  induction m with
  | nil => rfl
  | cons p rest ih =>
      obtain ⟨w, ts⟩ := p
      by_cases h : w = u
      · have hfilter : ¬ (decide ((w, ts).1 ≠ u) = true) := by simp [h]
        have hpv : ¬ w = v := by rw [h]; exact fun hh => hvu hh.symm
        rw [List.filter_cons, if_neg hfilter]
        simp only [lookupUser, hpv, if_false]
        exact ih
      · have hfilter : decide ((w, ts).1 ≠ u) = true := by simp [h]
        rw [List.filter_cons, if_pos hfilter]
        by_cases hpv : w = v
        · simp only [lookupUser, hpv, if_true]
        · simp only [lookupUser, hpv, if_false]
          exact ih

/-- `clear_history` leaves no binding for the cleared user. -/
theorem lookupUser_clearHistory_self (u : UserId) (cm : ConversationManager) :
    lookupUser (clearHistory u cm).conversations u = none := by
  unfold clearHistory
  by_cases h : (lookupUser cm.conversations u).isSome
  · simp only [h, if_true]
    exact lookupUser_eraseKey_self u cm.conversations
  · simp only [h, if_false]
    exact Option.not_isSome_iff_eq_none.mp h

/-- Rendering of history "as alternating User:/Assistant: lines in original
order", written following the spec's words (one labelled line per entry). -/
def renderHistorySpec : List HistEntry → String
  | [] => ""
  | m :: rest =>
      (if m.role = "user" then "User" else "Assistant") ++ ": " ++ m.content ++ "\n"
        ++ renderHistorySpec rest

/-- Backend payload as described by the spec: "Build a single combined prompt:
system_prompt, followed by a rendering of history as alternating
User:/Assistant: lines in original order, followed by the new input (either the
literal text appended after a User: label, or, if a media reference is supplied,
the combined prompt plus the media reference passed together to the backend
instead of appending text inline)". -/
def geminiPayloadSpec (systemPrompt : String) (history : List HistEntry)
    (newInput : String) (media : Option String) : GenPayload :=
  match media with
  | some f =>
      GenPayload.withMedia (systemPrompt ++ "\n\nConversation history:\n"
        ++ renderHistorySpec history) f
  | none =>
      GenPayload.textOnly (systemPrompt ++ "\n\nConversation history:\n"
        ++ renderHistorySpec history ++ "\nUser: " ++ newInput)

/-- The imperative `+=` loop over the history accumulates exactly the spec's
line-by-line rendering. -/
theorem foldl_renderHistory (history : List HistEntry) :
    ∀ acc : String,
      history.foldl
        (fun acc msg =>
          acc ++ (if msg.role = "user" then "User" else "Assistant") ++ ": "
            ++ msg.content ++ "\n") acc
        = acc ++ renderHistorySpec history := by
  induction history with
  | nil => intro acc; exact (String.append_empty acc).symm
  | cons m rest ih =>
      intro acc
      rw [List.foldl_cons, ih, renderHistorySpec]
      simp [String.append_assoc]

/-- The payload built by the code equals the payload described by the spec. -/
theorem geminiPayload_eq_spec (prompt : String) (history : List HistEntry)
    (inputContent : String) (file : Option String) :
    geminiPayload prompt history inputContent file
      = geminiPayloadSpec prompt history inputContent file := by
  cases file with
  | some f =>
      unfold geminiPayload geminiPayloadSpec buildFullPrompt
      rw [foldl_renderHistory]
  | none =>
      unfold geminiPayload geminiPayloadSpec buildFullPrompt
      rw [foldl_renderHistory]

/-- Filtering is idempotent on lists. -/
theorem filter_idem (q : Turn → Bool) (l : List Turn) :
    (l.filter q).filter q = l.filter q :=
  List.filter_eq_self.mpr (fun _ ha => List.of_mem_filter ha)

/-- One `add_message(user_id, role, content)` call performed at `time`. -/
structure AddOp where
  time : Int
  userId : UserId
  role : String
  content : String
deriving Repr, DecidableEq

/-- Running a sequence of `add_message` calls in order. -/
def runAdds (ops : List AddOp) (cm : ConversationManager) : ConversationManager :=
  ops.foldl (fun c op => addMessage op.time op.userId op.role op.content c) cm

/-- When no stored turn and no pending call is ever out of window relative to a
later call, a run of `add_message` calls appends exactly the requested turns
per user, in order, losing nothing to the sweeps. -/
theorem turnsOf_runAdds :
    ∀ (ops : List AddOp) (cm : ConversationManager),
      (∀ v t, t ∈ turnsOf cm v → ∀ op ∈ ops, op.time - t.timestamp < cm.expiryMinutes) →
      (∀ a ∈ ops, ∀ b ∈ ops, b.time - a.time < cm.expiryMinutes) →
      ∀ u, turnsOf (runAdds ops cm) u
        = turnsOf cm u ++ (ops.filter (fun op => decide (op.userId = u))).map
            (fun op => (⟨op.role, op.content, op.time⟩ : Turn)) := by
  intro ops
  induction ops with
  | nil => intro cm _ _ u; simp [runAdds]
  | cons op rest ih =>
      intro cm hFresh hPair u
      have hstep : runAdds (op :: rest) cm
          = runAdds rest (addMessage op.time op.userId op.role op.content cm) := rfl
      have hturns1 : ∀ v,
          turnsOf (addMessage op.time op.userId op.role op.content cm) v
            = turnsOf cm v
                ++ (if v = op.userId then [(⟨op.role, op.content, op.time⟩ : Turn)] else []) := by
        intro v
        rw [turnsOf_addMessage]
        have hfil : (turnsOf cm v).filter
            (fun t => decide (op.time - t.timestamp < cm.expiryMinutes)) = turnsOf cm v := by
          apply List.filter_eq_self.mpr
          intro t ht
          exact decide_eq_true (hFresh v t ht op (List.mem_cons_self op rest))
        by_cases h : v = op.userId
        · rw [if_pos h, if_pos h, hfil]
        · rw [if_neg h, if_neg h, hfil, List.append_nil]
      have hexp1 : (addMessage op.time op.userId op.role op.content cm).expiryMinutes
          = cm.expiryMinutes := rfl
      have hFresh1 : ∀ v t,
          t ∈ turnsOf (addMessage op.time op.userId op.role op.content cm) v →
          ∀ op2 ∈ rest, op2.time - t.timestamp
            < (addMessage op.time op.userId op.role op.content cm).expiryMinutes := by
        intro v t ht op2 hop2
        rw [hexp1]
        rw [hturns1 v] at ht
        rcases List.mem_append.mp ht with hold | hnew
        · exact hFresh v t hold op2 (List.mem_cons_of_mem op hop2)
        · by_cases h : v = op.userId
          · rw [if_pos h] at hnew
            have ht2 : t = ⟨op.role, op.content, op.time⟩ := List.mem_singleton.mp hnew
            rw [ht2]
            exact hPair op (List.mem_cons_self op rest) op2 (List.mem_cons_of_mem op hop2)
          · rw [if_neg h] at hnew
            cases hnew
      have hPair1 : ∀ a ∈ rest, ∀ b ∈ rest,
          b.time - a.time < (addMessage op.time op.userId op.role op.content cm).expiryMinutes := by
        intro a ha b hb
        rw [hexp1]
        exact hPair a (List.mem_cons_of_mem op ha) b (List.mem_cons_of_mem op hb)
      rw [hstep, ih _ hFresh1 hPair1 u, hturns1 u]
      by_cases h : op.userId = u
      · have h2 : u = op.userId := h.symm
        rw [if_pos h2, List.filter_cons, if_pos (decide_eq_true h), List.map_cons,
          List.append_assoc, List.singleton_append]
      · have h2 : ¬ u = op.userId := fun hh => h hh.symm
        rw [if_neg h2, List.filter_cons, if_neg (by simp [h]), List.append_nil]

/-- C1 counterexample: a generation attempt whose result is a propagated error
after which the user's history HAS changed. `generate_content` succeeds, but
the `response.text` access raises (as when the response is blocked or empty);
by then the user turn from line 189 is already persisted, so the history for
`u1` grows from empty to one turn even though the attempt failed. This refutes
the claim that a failed generation never records turns for the user. -/
theorem text_failure_pollutes_history :
    (generateGeminiResponse (fun _ => Except.ok "RESP") (fun _ => Except.error "blocked")
        0 "p" "u1" "hola" none (initManager 30)).1 = Except.error "blocked"
    ∧ (getHistory (initManager 30) "u1").2 = []
    ∧ (getHistory (generateGeminiResponse (fun _ => Except.ok "RESP")
          (fun _ => Except.error "blocked") 0 "p" "u1" "hola" none (initManager 30)).2
        "u1").2 = [⟨"user", "hola"⟩]
    ∧ (getHistory (generateGeminiResponse (fun _ => Except.ok "RESP")
          (fun _ => Except.error "blocked") 0 "p" "u1" "hola" none (initManager 30)).2
        "u1").2.length
      ≠ (getHistory (initManager 30) "u1").2.length :=
  ⟨rfl, rfl, by decide, by decide⟩

/-- C1 (amended): when the `generate_content` call itself raises, the error
propagates to the caller and no new turns are recorded for that user — the
store's history for `user_id`, and hence its length, is identical before and
after the failed attempt. (The original claim covered every failing generation
step, but when `generate_content` succeeds and the `response.text` extraction
raises, the user turn appended at line 189 has already been persisted; only the
assistant turn waits for the text to be successfully obtained.) -/
theorem generate_call_failure_records_no_turns {Resp : Type}
    (generateContent : GenPayload → Except String Resp)
    (respText : Resp → Except String String) (now : Int) (prompt : String)
    (uid : UserId) (inputContent : String) (file : Option String)
    (cm : ConversationManager) (e : String)
    (h : generateContent (geminiPayload prompt (getHistory cm uid).2 inputContent file)
          = Except.error e) :
    (generateGeminiResponse generateContent respText now prompt uid inputContent file cm).1
        = Except.error e
    ∧ (getHistory (generateGeminiResponse generateContent respText now prompt uid
          inputContent file cm).2 uid).2
        = (getHistory cm uid).2
    ∧ (getHistory (generateGeminiResponse generateContent respText now prompt uid
          inputContent file cm).2 uid).2.length
        = (getHistory cm uid).2.length := by
  have hres : generateGeminiResponse generateContent respText now prompt uid inputContent
      file cm = (Except.error e, (getHistory cm uid).1) := by
    simp only [generateGeminiResponse, h]
  rw [hres]
  refine ⟨rfl, ?_, ?_⟩
  · rw [getHistory_snd, turnsOf_getHistory_fst, ← getHistory_snd]
  · rw [getHistory_snd, turnsOf_getHistory_fst, ← getHistory_snd]

/-- Witness for the amended C1 at a concrete failing `generate_content`. -/
theorem generate_call_failure_records_no_turns_witness :
    ((fun _ => Except.error "boom" : GenPayload → Except String String)
        (geminiPayload "p" (getHistory (initManager 30) "u1").2 "hola" none)
      = Except.error "boom")
    ∧ ((generateGeminiResponse (fun _ => Except.error "boom") (fun r => Except.ok r) 0 "p"
          "u1" "hola" none (initManager 30)).1 = Except.error "boom"
      ∧ (getHistory (generateGeminiResponse (fun _ => Except.error "boom")
            (fun r => Except.ok r) 0 "p" "u1" "hola" none (initManager 30)).2 "u1").2
          = (getHistory (initManager 30) "u1").2
      ∧ (getHistory (generateGeminiResponse (fun _ => Except.error "boom")
            (fun r => Except.ok r) 0 "p" "u1" "hola" none (initManager 30)).2 "u1").2.length
          = (getHistory (initManager 30) "u1").2.length) :=
  ⟨rfl, generate_call_failure_records_no_turns (fun _ => Except.error "boom")
    (fun r => Except.ok r) 0 "p" "u1" "hola" none (initManager 30) "boom" rfl⟩

/-- C2: `add_message` sweeps all users before appending a turn stamped `now`;
consequently, after an `add_message` performed at a time `now` at least
`expiry_minutes` after `T`, no turn with timestamp `T` remains stored for any
user (the sweep keeps exactly the turns with `now - timestamp` strictly below
the window). -/
theorem turn_absent_after_window
    (cm : ConversationManager) (now T : Int) (uid : UserId) (role content : String)
    (u : UserId) (turn : Turn)
    (hw : 0 < cm.expiryMinutes)
    (hT : T + cm.expiryMinutes ≤ now)
    (hmem : turn ∈ turnsOf (addMessage now uid role content cm) u) :
    turn.timestamp ≠ T := by
  rw [turnsOf_addMessage] at hmem
  by_cases h : u = uid
  · rw [if_pos h] at hmem
    rcases List.mem_append.mp hmem with hold | hnew
    · have hdec := List.of_mem_filter hold
      have hlt : now - turn.timestamp < cm.expiryMinutes := of_decide_eq_true hdec
      intro hts
      rw [hts] at hlt
      omega
    · have ht2 : turn = ⟨role, content, now⟩ := List.mem_singleton.mp hnew
      intro hts
      rw [ht2] at hts
      have hnowT : now = T := hts
      omega
  · rw [if_neg h] at hmem
    have hdec := List.of_mem_filter hmem
    have hlt : now - turn.timestamp < cm.expiryMinutes := of_decide_eq_true hdec
    intro hts
    rw [hts] at hlt
    omega

/-- Witness for C2: with a 30-minute window, a turn stamped 0 is gone after an
`add_message` at time 30, whose own appended turn is stamped 30 and not 0. -/
theorem turn_absent_after_window_witness :
    (0 : Int) < 30
    ∧ (0 : Int) + 30 ≤ 30
    ∧ (⟨"user", "hi", 30⟩ : Turn)
        ∈ turnsOf (addMessage 30 "u1" "user" "hi" ⟨[("u1", [⟨"user", "old", 0⟩])], 30⟩) "u1"
    ∧ (⟨"user", "hi", 30⟩ : Turn).timestamp ≠ 0 :=
  ⟨by decide, by decide, by decide,
    turn_absent_after_window ⟨[("u1", [⟨"user", "old", 0⟩])], 30⟩ 30 0 "u1" "user" "hi"
      "u1" ⟨"user", "hi", 30⟩ (by decide) (by decide) (by decide)⟩

/-- C3: for any sequence of `add_message` calls whose timestamps all lie within
the expiry window of each other, `get_history(u)` returns exactly the turns
added for `u`, in insertion order, with role and content preserved verbatim and
only those two fields (the `HistEntry` record has no timestamp field). -/
theorem history_exact_within_window (w : Int) (ops : List AddOp) (u : UserId)
    (hPair : ∀ a ∈ ops, ∀ b ∈ ops, b.time - a.time < w) :
    (getHistory (runAdds ops (initManager w)) u).2
      = (ops.filter (fun op => decide (op.userId = u))).map
          (fun op => (⟨op.role, op.content⟩ : HistEntry)) := by
  rw [getHistory_snd]
  have hFresh : ∀ v t, t ∈ turnsOf (initManager w) v →
      ∀ op ∈ ops, op.time - t.timestamp < (initManager w).expiryMinutes := by
    intro v t ht
    simp [turnsOf, initManager, lookupUser] at ht
  have hPair2 : ∀ a ∈ ops, ∀ b ∈ ops, b.time - a.time < (initManager w).expiryMinutes := hPair
  rw [turnsOf_runAdds ops (initManager w) hFresh hPair2 u]
  have hinit : turnsOf (initManager w) u = [] := rfl
  rw [hinit, List.nil_append, List.map_map]
  apply List.map_congr_left
  intro op _
  rfl

/-- Witness for C3: the spec's concrete scenario with two same-instant adds. -/
theorem history_exact_within_window_witness :
    (getHistory (runAdds
        [⟨0, "u1", "user", "Hola"⟩, ⟨0, "u1", "assistant", "¡Buenas!"⟩]
        (initManager 30)) "u1").2
      = [⟨"user", "Hola"⟩, ⟨"assistant", "¡Buenas!"⟩] :=
  (history_exact_within_window 30
    [⟨0, "u1", "user", "Hola"⟩, ⟨0, "u1", "assistant", "¡Buenas!"⟩] "u1"
    (by decide)).trans (by decide)

/-- C4: `generate_gemini_response` queries the backend at exactly the payload
the spec describes — system prompt, then the stored history rendered as
alternating User:/Assistant: lines in insertion order, then the new input (the
literal text after a final "User:" label for text input, or the combined prompt
passed together with the media reference, with no inline text, for media
input): its result is `generate_content` evaluated at that payload, followed by
the `response.text` extraction on the returned response. -/
theorem payload_matches_spec {Resp : Type}
    (generateContent : GenPayload → Except String Resp)
    (respText : Resp → Except String String) (now : Int) (prompt : String)
    (uid : UserId) (inputContent : String) (file : Option String)
    (cm : ConversationManager) :
    (generateGeminiResponse generateContent respText now prompt uid inputContent file cm).1
      = Except.bind
          (generateContent (geminiPayloadSpec prompt (getHistory cm uid).2 inputContent file))
          respText := by
  rw [← geminiPayload_eq_spec]
  cases hb : generateContent (geminiPayload prompt (getHistory cm uid).2 inputContent file) with
  | error e => simp only [generateGeminiResponse, hb, Except.bind]
  | ok resp =>
      cases ht : respText resp with
      | error e => simp only [generateGeminiResponse, hb, ht, Except.bind]
      | ok text => simp only [generateGeminiResponse, hb, ht, Except.bind]

/-- C5: a text message equal to "clear history" up to letter case makes the
handler clear that user's history and reply with the fixed acknowledgement,
leaving the user's stored history empty. -/
theorem clear_history_command {Resp : Type}
    (generateContent : GenPayload → Except String Resp)
    (respText : Resp → Except String String) (now : Int) (msgText : String)
    (uid : UserId) (cm : ConversationManager)
    (h : strLower msgText = "clear history") :
    handle_text generateContent respText now msgText uid cm
      = ("¡Historial de conversación borrado! Empecemos de nuevo.", clearHistory uid cm)
    ∧ (getHistory (handle_text generateContent respText now msgText uid cm).2 uid).2 = [] := by
  have h1 : handle_text generateContent respText now msgText uid cm
      = ("¡Historial de conversación borrado! Empecemos de nuevo.", clearHistory uid cm) := by
    unfold handle_text
    rw [if_pos h]
  have h2 : (getHistory (clearHistory uid cm) uid).2 = [] := by
    rw [getHistory_snd]
    unfold turnsOf
    rw [lookupUser_clearHistory_self]
    rfl
  refine ⟨h1, ?_⟩
  rw [h1]
  exact h2

/-- Witness for C5 at a mixed-case command and a non-empty prior history. -/
theorem clear_history_command_witness :
    strLower "CLEAR History" = "clear history"
    ∧ (handle_text (fun _ => Except.error "") (fun r : String => Except.ok r) 0
          "CLEAR History" "7" ⟨[("7", [⟨"user", "hola", 0⟩])], 30⟩
        = ("¡Historial de conversación borrado! Empecemos de nuevo.",
            clearHistory "7" ⟨[("7", [⟨"user", "hola", 0⟩])], 30⟩)
      ∧ (getHistory (handle_text (fun _ => Except.error "") (fun r : String => Except.ok r)
            0 "CLEAR History" "7" ⟨[("7", [⟨"user", "hola", 0⟩])], 30⟩).2 "7").2 = []) :=
  ⟨by decide,
    clear_history_command (fun _ => Except.error "") (fun r : String => Except.ok r) 0
      "CLEAR History" "7" ⟨[("7", [⟨"user", "hola", 0⟩])], 30⟩ (by decide)⟩

/-- C6: `get_history` on a user id with no stored entry returns the empty
sequence; the operation is a total function, so it cannot fail or raise. -/
theorem get_history_unknown_empty (cm : ConversationManager) (u : UserId)
    (h : lookupUser cm.conversations u = none) :
    (getHistory cm u).2 = [] := by
  rw [getHistory_snd]
  unfold turnsOf
  rw [h]
  rfl

/-- Witness for C6 on a freshly constructed manager. -/
theorem get_history_unknown_empty_witness :
    lookupUser (initManager 30).conversations "u1" = none
    ∧ (getHistory (initManager 30) "u1").2 = [] :=
  ⟨rfl, get_history_unknown_empty (initManager 30) "u1" rfl⟩

/-- C7: `clear_history(user_id)` removes the user's entire stored entry; when
the user is unknown it is a no-op returning the state unchanged (no error), and
in every case all other users' bindings are exactly unchanged. -/
theorem clear_history_frame (cm : ConversationManager) (u : UserId) :
    lookupUser (clearHistory u cm).conversations u = none
    ∧ (lookupUser cm.conversations u = none → clearHistory u cm = cm)
    ∧ ∀ v, v ≠ u → lookupUser (clearHistory u cm).conversations v
        = lookupUser cm.conversations v := by
  refine ⟨lookupUser_clearHistory_self u cm, ?_, ?_⟩
  · intro h
    simp [clearHistory, h]
  · intro v hv
    unfold clearHistory
    by_cases hs : (lookupUser cm.conversations u).isSome
    · rw [if_pos hs]
      exact lookupUser_eraseKey_ne hv cm.conversations
    · rw [if_neg hs]

/-- Witness for C7: clearing an unknown user "b" is a no-op that leaves user
"a" untouched. -/
theorem clear_history_frame_witness :
    lookupUser (clearHistory "b" ⟨[("a", [])], 30⟩).conversations "b" = none
    ∧ clearHistory "b" ⟨[("a", [])], 30⟩ = (⟨[("a", [])], 30⟩ : ConversationManager)
    ∧ lookupUser (clearHistory "b" ⟨[("a", [])], 30⟩).conversations "a"
        = lookupUser (⟨[("a", [])], 30⟩ : ConversationManager).conversations "a" :=
  ⟨(clear_history_frame ⟨[("a", [])], 30⟩ "b").1,
    (clear_history_frame ⟨[("a", [])], 30⟩ "b").2.1 (by decide),
    (clear_history_frame ⟨[("a", [])], 30⟩ "b").2.2 "a" (by decide)⟩

/-- C8: `_clean_expired()` is a pure function of the prior state and the fixed
current time, and running it twice at the same instant equals running it once. -/
theorem clean_expired_idempotent (now : Int) (cm : ConversationManager) :
    cleanExpired now (cleanExpired now cm) = cleanExpired now cm := by
  obtain ⟨conv, e⟩ := cm
  simp only [cleanExpired, List.map_map]
  congr 1
  apply List.map_congr_left
  intro p _
  simp only [Function.comp]
  rw [filter_idem]

/-- C9: the expiry sweep never deletes a user's map entry (the key sequence of
the mapping is unchanged, so a fully expired user keeps an empty row), in
contrast to `clear_history`, which removes the entry wholesale; and the sweep
never rewrites a stored turn — each user's surviving sequence is a sublist of
the prior one, turns removed whole and never mutated. -/
theorem sweep_preserves_rows (now : Int) (cm : ConversationManager) :
    (cleanExpired now cm).conversations.map Prod.fst = cm.conversations.map Prod.fst
    ∧ (∀ u, (turnsOf (cleanExpired now cm) u).Sublist (turnsOf cm u))
    ∧ (∀ u, lookupUser (clearHistory u cm).conversations u = none) := by
  refine ⟨?_, ?_, fun u => lookupUser_clearHistory_self u cm⟩
  · simp only [cleanExpired, List.map_map]
    apply List.map_congr_left
    intro p _
    rfl
  · intro u
    rw [turnsOf_cleanExpired]
    exact List.filter_sublist _

/-- C10: reading the history of a user id that is not a key inserts an empty
row for it (the `defaultdict` side effect), returns the empty sequence, and
leaves every other user's binding unchanged. -/
theorem get_history_inserts_row (cm : ConversationManager) (u : UserId)
    (h : lookupUser cm.conversations u = none) :
    (getHistory cm u).1.conversations = cm.conversations ++ [(u, [])]
    ∧ (getHistory cm u).2 = []
    ∧ ∀ v, v ≠ u → lookupUser (getHistory cm u).1.conversations v
        = lookupUser cm.conversations v := by
  have h1 : (getHistory cm u).1.conversations = cm.conversations ++ [(u, [])] := by
    simp only [getHistory, defaultAccess, h]
  refine ⟨h1, ?_, ?_⟩
  · rw [getHistory_snd]
    unfold turnsOf
    rw [h]
    rfl
  · intro v hv
    rw [h1]
    cases hcv : lookupUser cm.conversations v with
    | some ts => exact lookupUser_append_of_some _ hcv
    | none =>
        rw [lookupUser_append_of_none _ hcv]
        have huv : ¬ u = v := fun hh => hv hh.symm
        simp only [lookupUser, huv, if_false]

/-- Witness for C10: reading unknown user "b" appends an empty row and leaves
user "a" unchanged. -/
theorem get_history_inserts_row_witness :
    lookupUser (⟨[("a", [⟨"user", "x", 0⟩])], 30⟩ : ConversationManager).conversations "b" = none
    ∧ (getHistory ⟨[("a", [⟨"user", "x", 0⟩])], 30⟩ "b").1.conversations
        = [("a", [⟨"user", "x", 0⟩])] ++ [("b", [])]
    ∧ (getHistory ⟨[("a", [⟨"user", "x", 0⟩])], 30⟩ "b").2 = []
    ∧ lookupUser (getHistory ⟨[("a", [⟨"user", "x", 0⟩])], 30⟩ "b").1.conversations "a"
        = lookupUser (⟨[("a", [⟨"user", "x", 0⟩])], 30⟩ : ConversationManager).conversations "a" :=
  ⟨by decide,
    (get_history_inserts_row ⟨[("a", [⟨"user", "x", 0⟩])], 30⟩ "b" (by decide)).1,
    (get_history_inserts_row ⟨[("a", [⟨"user", "x", 0⟩])], 30⟩ "b" (by decide)).2.1,
    (get_history_inserts_row ⟨[("a", [⟨"user", "x", 0⟩])], 30⟩ "b" (by decide)).2.2 "a"
      (by decide)⟩

end SpanishTutor
